import Mathlib

set_option maxRecDepth 100000

/-!
Shallow embedding of the poker hand-evaluation and equity-simulation engine
(the `evaluate.service` module of the repository): card encoding, 5-card
classification, 7-card best-hand search, and the Monte-Carlo equity
estimators.

Modelling conventions, chosen to match the JavaScript source exactly:

* JavaScript numbers stay below `2 ^ 31` throughout the engine (the largest
  packed card is below `2 ^ 29` and the largest prime product is
  `41 ^ 5 < 2 ^ 31`), so machine integers are modelled by `Nat`.
* `Array.prototype.sort()` without a comparator sorts by comparing the
  elements' decimal string representations; this is modelled by a stable
  sort (`List.insertionSort`) under the lexicographic order of the lists of
  character codes of the decimal digits, which is exactly the ECMAScript
  string order on the canonical decimal strings.
* String comparison of rank-class names (`heroRank > villainRank` in
  `equityRangeVsRange`) is modelled by the lexicographic order on the lists
  of character codes of the names.
* `toFixed(2)` percentages are modelled over `ℚ` with exact half-up decimal
  rounding (ECMAScript picks the closer hundredth, ties upward).
* Every use of `Math.random` is replaced by an explicit parameter: a stream
  of selection indices for range sampling and a per-trial shuffle oracle for
  deck shuffles, so theorems quantify over all possible random behaviour.
* A record with ascending non-negative integer-like keys enumerates its
  values in ascending key order, and any string key (the `undefined` bucket
  produced by an unknown rank) after the integer keys; `rankCounts` below
  reproduces that enumeration order.
* Out-of-range array reads yield `undefined`, which the bitwise operators
  and arithmetic of the evaluator coerce to `0`; they are modelled with
  `List.getD _ 0` at exactly the places the source indexes an array.
-/

/-- Modelled from the spec: the repository's `Card` type (declared in the
`@poker/types` package, outside the core source) is an immutable value of a
rank symbol and a suit symbol, compared field-wise. -/
structure Card where
  rank : String
  suit : String
deriving DecidableEq, Repr

/-- `RANKS`: the thirteen rank symbols in ascending order. -/
def RANKS : List String :=
  ["2", "3", "4", "5", "6", "7", "8", "9", "10", "J", "Q", "K", "A"]

/-- `PRIMES`: the prime weight assigned to each rank, in rank order. -/
def PRIMES : List Nat := [2, 3, 5, 7, 11, 13, 17, 19, 23, 29, 31, 37, 41]

/-- The source builds a record `rankIndex` mapping each rank symbol to its
position in `RANKS` (the symbols are distinct, so the record maps each rank
to its index); looking up an unknown symbol gives `undefined`, modelled as
`none`. -/
def rankIdxOpt (r : String) : Option Nat :=
  if r ∈ RANKS then some (RANKS.indexOf r) else none

/-- `SUIT_MASK` record: one-of-four suit flag bits.  A missing suit symbol
looks up as `undefined`, which the encoder's bitwise `|` coerces to `0`. -/
def suitMask (s : String) : Nat :=
  if s = "♣️" then 0x8000
  else if s = "♦️" then 0x4000
  else if s = "♥️" then 0x2000
  else if s = "♠️" then 0x1000
  else 0

/-- The packed integer built by `encodeCard` from a rank index (or the
`undefined` produced by an unknown rank) and a suit flag:
`prime | (r << 8) | suit | ((1 << r) << 16)`.  In the `undefined` case the
JavaScript coercions give `prime = 0`, `r << 8 = 0` and `1 << undefined = 1`. -/
def encodeAt : Option Nat → Nat → Nat
  | some r, m => PRIMES.getD r 0 ||| (r <<< 8) ||| m ||| ((1 <<< r) <<< 16)
  | none, m => m ||| (1 <<< 16)

/-- `encodeCard` (Kev structure): prime weight in the low byte, rank index in
the second byte, suit flag in bits 12-15, one-hot rank bit from bit 16. -/
def encodeCard (c : Card) : Nat :=
  encodeAt (rankIdxOpt c.rank) (suitMask c.suit)

/-- A card whose rank and suit symbols are among the 52 recognized ones. -/
def validCard (c : Card) : Bool :=
  (rankIdxOpt c.rank).isSome && (suitMask c.suit != 0)

/-- `STRAIGHTS`: the ten rank bitmasks recognized as straights — nine
consecutive 5-bit windows over the 13-bit rank space plus the wheel. -/
def STRAIGHTS : List Nat :=
  [0b1111100000000,
   0b0111110000000,
   0b0011111000000,
   0b0001111100000,
   0b0000111110000,
   0b0000011111000,
   0b0000001111100,
   0b0000000111110,
   0b0000000011111,
   0b1000000001111]

/-- `isStraightMask`: the rank mask contains one of the ten straight
patterns. -/
def isStraightMask (mask : Nat) : Bool :=
  STRAIGHTS.any (fun s => (mask &&& s) == s)

/-- The nine-way hand category, as in the source's `RankClass` union. -/
inductive RankClass where
  | HIGH
  | PAIR
  | TWOPAIR
  | TRIPS
  | STRAIGHT
  | FLUSH
  | FULLHOUSE
  | QUADS
  | STRAIGHTFLUSH
deriving DecidableEq, Repr

/-- The string literal the source uses for each `RankClass` value. -/
def rcStr : RankClass → String
  | .HIGH => "HIGH"
  | .PAIR => "PAIR"
  | .TWOPAIR => "TWOPAIR"
  | .TRIPS => "TRIPS"
  | .STRAIGHT => "STRAIGHT"
  | .FLUSH => "FLUSH"
  | .FULLHOUSE => "FULLHOUSE"
  | .QUADS => "QUADS"
  | .STRAIGHTFLUSH => "STRAIGHTFLUSH"

/-- The list of character codes of a string: ECMAScript compares strings by
exactly this sequence, lexicographically. -/
def strCode (s : String) : List Nat := s.data.map Char.toNat

/-- ECMAScript `a < b` on strings, as the lexicographic order of the
character-code lists. -/
def jsStrLt (a b : String) : Prop := strCode a < strCode b

instance : DecidableRel jsStrLt := fun a b =>
  inferInstanceAs (Decidable (strCode a < strCode b))

/-- The decimal string JavaScript prints for a natural number, as its list of
character codes. -/
def jsKey (n : Nat) : List Nat := (Nat.toDigits 10 n).map Char.toNat

/-- The order `Array.prototype.sort()` uses without a comparator: ascending
by the decimal string representation. -/
def jsSortLe (a b : Nat) : Prop := jsKey a ≤ jsKey b

instance : DecidableRel jsSortLe := fun a b =>
  inferInstanceAs (Decidable (jsKey a ≤ jsKey b))

instance : IsTotal Nat jsSortLe := ⟨fun a b => le_total (jsKey a) (jsKey b)⟩

instance : IsTrans Nat jsSortLe := ⟨fun _ _ _ h1 h2 => le_trans h1 h2⟩

/-- `Array.prototype.sort()` without a comparator: a stable sort ascending by
decimal string representation (ECMAScript requires sort to be stable, so any
stable sort computes the same list). -/
def jsSort (l : List Nat) : List Nat := List.insertionSort jsSortLe l

/-- The `Object.values(counts)` array of the source's count record: for each
rank index `0..12` in ascending key order, the number of cards of that rank
(keys with count zero are absent), followed by the `undefined` bucket that
collects cards with an unrecognized rank symbol (a string key, enumerated
after the integer keys). -/
def rankCounts (cards : List Card) : List Nat :=
  let rs := cards.filterMap (fun c => rankIdxOpt c.rank)
  ((List.range 13).map (fun r => rs.count r)).filter (fun n => n != 0) ++
    (if cards.length - rs.length = 0 then [] else [cards.length - rs.length])

/-- The sorted count pattern the source builds with
`Object.values(counts).sort()`.  (The source then compares
`pattern.join(',')` with string literals; joining decimal numerals with `,`
is injective, so comparing the sorted lists below is the same test.) -/
def countPattern (counts : List Nat) : List Nat := jsSort counts

/-- `classifyByCounts`: match the sorted count pattern against the five
recognized patterns (`'4,1'`, `'3,2'`, `'3,1,1'`, `'2,2,1'`, `'2,1,1,1'`),
anything else being `HIGH`.  Note the source sorts ascending (default JS
sort) while the patterns are written descending. -/
def classifyByCounts (counts : List Nat) : RankClass :=
  let pattern := countPattern counts
  if pattern = [4, 1] then .QUADS
  else if pattern = [3, 2] then .FULLHOUSE
  else if pattern = [3, 1, 1] then .TRIPS
  else if pattern = [2, 2, 1] then .TWOPAIR
  else if pattern = [2, 1, 1, 1] then .PAIR
  else .HIGH

/-- `ints[0] & ints[1] & ints[2] & ints[3] & ints[4]` with JavaScript
out-of-range reads coerced to `0` by `&`. -/
def and5 (l : List Nat) : Nat :=
  l.getD 0 0 &&& l.getD 1 0 &&& l.getD 2 0 &&& l.getD 3 0 &&& l.getD 4 0

/-- `ints[0] | ints[1] | ints[2] | ints[3] | ints[4]` with JavaScript
out-of-range reads coerced to `0` by `|`. -/
def or5 (l : List Nat) : Nat :=
  l.getD 0 0 ||| l.getD 1 0 ||| l.getD 2 0 ||| l.getD 3 0 ||| l.getD 4 0

/-- `(ints[0] & 0xff) * ... * (ints[4] & 0xff)` with JavaScript out-of-range
reads coerced to `0`. -/
def prod5 (l : List Nat) : Nat :=
  (l.getD 0 0 &&& 0xff) * (l.getD 1 0 &&& 0xff) * (l.getD 2 0 &&& 0xff) *
    (l.getD 3 0 &&& 0xff) * (l.getD 4 0 &&& 0xff)

/-- The flush test of `evaluate5Kev`: the `&` of the five packed cards still
has a suit bit set iff all five share a suit. -/
def isFlush5 (cards : List Card) : Bool :=
  (and5 (cards.map encodeCard) &&& 0xf000) != 0

/-- The straight test of `evaluate5Kev`: the `|` of the five packed cards,
shifted into the 13-bit rank window, contains a straight pattern. -/
def isStraight5 (cards : List Card) : Bool :=
  isStraightMask (or5 (cards.map encodeCard) >>> 16)

/-- The memoizing `PRIME_LOOKUP` map: prime product to rank class.  The
source only ever inserts fresh keys, so an association list with first-match
lookup models the `Map` exactly. -/
abbrev Cache := List (Nat × RankClass)

/-- `evaluate5Kev` with the process-wide `PRIME_LOOKUP` map passed as
explicit state: flush from the `&` of the five packed cards, straight from
the `|` of their rank bits, then the prime-product cache, then
`classifyByCounts`, inserting the fresh result into the cache. -/
def evaluate5KevS (cache : Cache) (cards : List Card) : RankClass × Cache :=
  if isStraight5 cards && isFlush5 cards then (.STRAIGHTFLUSH, cache)
  else if isFlush5 cards then (.FLUSH, cache)
  else if isStraight5 cards then (.STRAIGHT, cache)
  else
    let product := prod5 (cards.map encodeCard)
    match cache.lookup product with
    | some v => (v, cache)
    | none =>
      let cls := classifyByCounts (rankCounts cards)
      (cls, (product, cls) :: cache)

/-- `evaluate5Kev` run from the empty cache; the cache-coherence theorem for
C9 shows the first component is the same for every cache reachable by prior
calls, so the equity pipeline below uses this stateless form. -/
def evaluate5Kev (cards : List Card) : RankClass :=
  if isStraight5 cards && isFlush5 cards then .STRAIGHTFLUSH
  else if isFlush5 cards then .FLUSH
  else if isStraight5 cards then .STRAIGHT
  else classifyByCounts (rankCounts cards)

/-- The caches the process-wide `PRIME_LOOKUP` map can actually reach: empty
at startup, then grown by an arbitrary sequence of `evaluate5Kev` calls. -/
inductive Reachable : Cache → Prop where
  | empty : Reachable []
  | step (cache : Cache) (cards : List Card) :
      Reachable cache → Reachable (evaluate5KevS cache cards).2

/-- `combinations(arr, k)`: all `k`-element subsequences of `arr`, in the
order the source's recursive helper pushes them (every combination through
`arr[i]` before any combination skipping it). -/
def combinations : List α → Nat → List (List α)
  | _, 0 => [[]]
  | [], _ + 1 => []
  | a :: rest, k + 1 =>
    (combinations rest k).map (fun c => a :: c) ++ combinations rest (k + 1)

/-- The total order of rank classes by enumeration position: the source
repeats this identical list as `rankOrder` inside `evaluate7Perfect`, as
`order` inside `calculateHandEquity` and as the top-level `RANK_ORDER`. -/
def RANK_ORDER : List RankClass :=
  [.HIGH, .PAIR, .TWOPAIR, .TRIPS, .STRAIGHT, .FLUSH, .FULLHOUSE, .QUADS,
   .STRAIGHTFLUSH]

/-- `evaluate7Perfect`: classify every 5-card subset and keep the class with
the larger `rankOrder` index, starting from `HIGH`. -/
def evaluate7Perfect (cards : List Card) : RankClass :=
  (combinations cards 5).foldl
    (fun best c =>
      let r := evaluate5Kev c
      if RANK_ORDER.indexOf r > RANK_ORDER.indexOf best then r else best)
    .HIGH

/-- `compareRanks`: difference of `RANK_ORDER` positions (negative, zero or
positive). -/
def compareRanks (a b : RankClass) : Int :=
  (RANK_ORDER.indexOf a : Int) - (RANK_ORDER.indexOf b : Int)

/-- `removeUsed`: drop from the deck every card equal (field-wise) to a used
card. -/
def removeUsed (deck used : List Card) : List Card :=
  deck.filter (fun c => !(used.any (fun u => u.rank == c.rank && u.suit == c.suit)))

/-- The counters object returned by `equityRangeVsRange`. -/
structure RangeVsRangeResult where
  heroWin : Nat
  villainWin : Nat
  tie : Nat
deriving DecidableEq, Repr

/-- A placeholder holding, only ever read if a range is indexed out of
bounds (where the JavaScript source would produce `undefined` and fault). -/
def defaultHand : Card × Card := (⟨"2", "♣️"⟩, ⟨"2", "♣️"⟩)

/-- The loop body of `equityRangeVsRange` (named for the proofs; the source
inlines it in the `for` loop): sample a holding from each range, complete
the board, classify both sides and compare — the source compares
`heroRank > villainRank` directly on the rank-class name strings, not
through `rankOrder`.  Randomness is explicit: `hpick i` and `vpick i` are
the trial-`i` results of `Math.floor(Math.random() * range.length)`
(reduced modulo the range length, the interval the source always lands in),
and `shuf i` is the permutation the trial-`i` comparator-shuffle
produces. -/
def rangeTrial (heroRange villainRange : List (Card × Card))
    (board deck : List Card) (hpick vpick : Nat → Nat)
    (shuf : Nat → List Card → List Card) (acc : Nat × Nat × Nat) (i : Nat) :
    Nat × Nat × Nat :=
  let hero := heroRange.getD (hpick i % heroRange.length) defaultHand
  let villain := villainRange.getD (vpick i % villainRange.length) defaultHand
  let used := [hero.1, hero.2, villain.1, villain.2] ++ board
  let rem := removeUsed deck used
  let shuffled := shuf i rem
  let need := 5 - board.length
  let fullBoard := board ++ shuffled.take need
  let heroRank := evaluate7Perfect ([hero.1, hero.2] ++ fullBoard)
  let villainRank := evaluate7Perfect ([villain.1, villain.2] ++ fullBoard)
  if heroRank = villainRank then (acc.1, acc.2.1, acc.2.2 + 1)
  else if jsStrLt (rcStr villainRank) (rcStr heroRank) then
    (acc.1 + 1, acc.2.1, acc.2.2)
  else (acc.1, acc.2.1 + 1, acc.2.2)

def equityRangeVsRange (heroRange villainRange : List (Card × Card))
    (board deck : List Card) (iterations : Nat) (hpick vpick : Nat → Nat)
    (shuf : Nat → List Card → List Card) : RangeVsRangeResult :=
  let tally := (List.range iterations).foldl
    (rangeTrial heroRange villainRange board deck hpick vpick shuf) (0, 0, 0)
  ⟨tally.1, tally.2.1, tally.2.2⟩

/-- `FULL_DECK`: the 52-card universe, suits outermost in the order
clubs, diamonds, hearts, spades. -/
def FULL_DECK : List Card :=
  ["♣️", "♦️", "♥️", "♠️"].flatMap (fun s => RANKS.map (fun r => ⟨r, s⟩))

/-- `Number(x.toFixed(2))`: round to the nearest hundredth, ties upward. -/
def toFixed2 (x : ℚ) : ℚ := ((⌊x * 100 + 1 / 2⌋ : ℤ) : ℚ) / 100

/-- The result of `calculateHandEquity`. -/
structure EquityResult where
  win : Nat
  lose : Nat
  tie : Nat
  winPct : ℚ
  losePct : ℚ
  tiePct : ℚ
deriving DecidableEq, Repr

/-- `calculateHandEquity` (hero hand vs unknown opponent): per trial, deal
the opponent the first two cards of the shuffled remaining deck and complete
the board with the next `5 - |board|`; compare through the `order` list.
`shuf i` is the permutation trial `i`'s comparator-shuffle produces.
The loop body is named `handEquityTrial` (the source inlines it in the
`for` loop). -/
def handEquityTrial (heroHole : Card × Card) (board : List Card)
    (shuf : Nat → List Card → List Card) (acc : Nat × Nat × Nat) (i : Nat) :
    Nat × Nat × Nat :=
  let used := [heroHole.1, heroHole.2] ++ board
  let deck := FULL_DECK.filter
    (fun c => !(used.any (fun u => u.rank == c.rank && u.suit == c.suit)))
  let shuffled := shuf i deck
  let villainHole : Card × Card :=
    (shuffled.getD 0 defaultHand.1, shuffled.getD 1 defaultHand.1)
  let need := 5 - board.length
  let runout := (shuffled.drop 2).take need
  let fullBoard := board ++ runout
  let heroRank := evaluate7Perfect ([heroHole.1, heroHole.2] ++ fullBoard)
  let villainRank :=
    evaluate7Perfect ([villainHole.1, villainHole.2] ++ fullBoard)
  let h := RANK_ORDER.indexOf heroRank
  let v := RANK_ORDER.indexOf villainRank
  if h > v then (acc.1 + 1, acc.2.1, acc.2.2)
  else if h < v then (acc.1, acc.2.1 + 1, acc.2.2)
  else (acc.1, acc.2.1, acc.2.2 + 1)

def calculateHandEquity (heroHole : Card × Card) (board : List Card)
    (iterations : Nat) (shuf : Nat → List Card → List Card) : EquityResult :=
  let tally := (List.range iterations).foldl
    (handEquityTrial heroHole board shuf) (0, 0, 0)
  let win := tally.1
  let lose := tally.2.1
  let tie := tally.2.2
  let total := win + lose + tie
  { win := win, lose := lose, tie := tie,
    winPct := toFixed2 ((win : ℚ) / (total : ℚ) * 100),
    losePct := toFixed2 ((lose : ℚ) / (total : ℚ) * 100),
    tiePct := toFixed2 ((tie : ℚ) / (total : ℚ) * 100) }

/-- The result of `calculateHandVsHandEquity`. -/
structure HandVsHandEquityResult where
  heroWin : Nat
  villainWin : Nat
  tie : Nat
  heroPct : ℚ
  villainPct : ℚ
  tiePct : ℚ
deriving DecidableEq, Repr

/-- `calculateHandVsHandEquity` (two fixed holdings): per trial, remove both
holdings and the board from the full deck, shuffle, complete the board with
the first `5 - |board|` cards, classify both 7-card hands and compare with
`compareRanks`.  `shuf i` is the permutation trial `i`'s comparator-shuffle
produces.
The loop body is named `handVsHandTrial` (the source inlines it in the
`for` loop). -/
def handVsHandTrial (heroHole villainHole : Card × Card) (board : List Card)
    (shuf : Nat → List Card → List Card) (acc : Nat × Nat × Nat) (i : Nat) :
    Nat × Nat × Nat :=
  let used := [heroHole.1, heroHole.2, villainHole.1, villainHole.2] ++ board
  let deck := FULL_DECK.filter
    (fun c => !(used.any (fun u => u.rank == c.rank && u.suit == c.suit)))
  let shuffled := shuf i deck
  let need := 5 - board.length
  let runout := shuffled.take need
  let fullBoard := board ++ runout
  let heroRank := evaluate7Perfect ([heroHole.1, heroHole.2] ++ fullBoard)
  let villainRank :=
    evaluate7Perfect ([villainHole.1, villainHole.2] ++ fullBoard)
  let cmp := compareRanks heroRank villainRank
  if cmp > 0 then (acc.1 + 1, acc.2.1, acc.2.2)
  else if cmp < 0 then (acc.1, acc.2.1 + 1, acc.2.2)
  else (acc.1, acc.2.1, acc.2.2 + 1)

def calculateHandVsHandEquity (heroHole villainHole : Card × Card)
    (board : List Card) (iterations : Nat)
    (shuf : Nat → List Card → List Card) : HandVsHandEquityResult :=
  let tally := (List.range iterations).foldl
    (handVsHandTrial heroHole villainHole board shuf) (0, 0, 0)
  let heroWin := tally.1
  let villainWin := tally.2.1
  let tie := tally.2.2
  let total := heroWin + villainWin + tie
  { heroWin := heroWin, villainWin := villainWin, tie := tie,
    heroPct := toFixed2 ((heroWin : ℚ) / (total : ℚ) * 100),
    villainPct := toFixed2 ((villainWin : ℚ) / (total : ℚ) * 100),
    tiePct := toFixed2 ((tie : ℚ) / (total : ℚ) * 100) }

/-! ### Best-of-21 machinery (C6) -/

theorem combinations_length (l : List α) :
    ∀ k, (combinations l k).length = l.length.choose k := by
  induction l with
  | nil =>
    intro k
    cases k <;> simp [combinations]
  | cons a t ih =>
    intro k
    cases k with
    | zero => simp [combinations]
    | succ k =>
      simp only [combinations, List.length_append, List.length_map, ih,
        List.length_cons, Nat.choose_succ_succ]

/-- The running best of `evaluate7Perfect` is an upper bound (in
`RANK_ORDER` position) of the initial value and of every classified subset,
and it is either the initial value or attained by some subset. -/
theorem foldl_best_spec (L : List (List Card)) :
    ∀ b : RankClass,
      RANK_ORDER.indexOf b ≤ RANK_ORDER.indexOf (L.foldl
        (fun best c =>
          let r := evaluate5Kev c
          if RANK_ORDER.indexOf r > RANK_ORDER.indexOf best then r else best)
        b) ∧
      ((L.foldl (fun best c =>
          let r := evaluate5Kev c
          if RANK_ORDER.indexOf r > RANK_ORDER.indexOf best then r else best)
        b) = b ∨
        ∃ s ∈ L, evaluate5Kev s = L.foldl (fun best c =>
          let r := evaluate5Kev c
          if RANK_ORDER.indexOf r > RANK_ORDER.indexOf best then r else best)
        b) ∧
      ∀ s ∈ L, RANK_ORDER.indexOf (evaluate5Kev s) ≤ RANK_ORDER.indexOf
        (L.foldl (fun best c =>
          let r := evaluate5Kev c
          if RANK_ORDER.indexOf r > RANK_ORDER.indexOf best then r else best)
        b) := by
  induction L with
  | nil => exact fun b => ⟨le_refl _, Or.inl rfl, by simp⟩
  | cons a L ih =>
    intro b
    simp only [List.foldl_cons]
    obtain ⟨ih1, ih2, ih3⟩ := ih
      (if RANK_ORDER.indexOf (evaluate5Kev a) > RANK_ORDER.indexOf b then
        evaluate5Kev a else b)
    have hstep : RANK_ORDER.indexOf b ≤ RANK_ORDER.indexOf
        (if RANK_ORDER.indexOf (evaluate5Kev a) > RANK_ORDER.indexOf b then
          evaluate5Kev a else b) := by
      split_ifs with h
      · omega
      · exact le_refl _
    have hstepa : RANK_ORDER.indexOf (evaluate5Kev a) ≤ RANK_ORDER.indexOf
        (if RANK_ORDER.indexOf (evaluate5Kev a) > RANK_ORDER.indexOf b then
          evaluate5Kev a else b) := by
      split_ifs with h
      · exact le_refl _
      · omega
    refine ⟨le_trans hstep ih1, ?_, ?_⟩
    · rcases ih2 with h2 | ⟨s, hs, hval⟩
      · rw [h2]
        split_ifs with h
        · exact Or.inr ⟨a, List.mem_cons_self a L, rfl⟩
        · exact Or.inl rfl
      · exact Or.inr ⟨s, List.mem_cons_of_mem a hs, hval⟩
    · intro s hs
      rcases List.mem_cons.mp hs with rfl | hmem
      · exact le_trans hstepa ih1
      · exact ih3 s hmem

theorem indexOf_eq_zero_HIGH :
    ∀ r : RankClass, RANK_ORDER.indexOf r = 0 → r = RankClass.HIGH := by
  intro r
  cases r <;> decide

/-! ### Trial tallying (C7, C8) -/

/-- If every step of a fold adds exactly one to the sum of the three
counters, the fold over a list adds the list's length. -/
theorem foldl_tally {f : Nat × Nat × Nat → Nat → Nat × Nat × Nat}
    (hf : ∀ acc i, (f acc i).1 + (f acc i).2.1 + (f acc i).2.2 =
      acc.1 + acc.2.1 + acc.2.2 + 1) :
    ∀ (l : List Nat) (acc : Nat × Nat × Nat),
      (l.foldl f acc).1 + (l.foldl f acc).2.1 + (l.foldl f acc).2.2 =
        acc.1 + acc.2.1 + acc.2.2 + l.length := by
  intro l
  induction l with
  | nil => intro acc; simp
  | cons x t ih =>
    intro acc
    simp only [List.foldl_cons, List.length_cons]
    rw [ih (f acc x), hf acc x]
    omega

theorem foldl_inc1 {f : Nat × Nat × Nat → Nat → Nat × Nat × Nat}
    (hf : ∀ acc i, f acc i = (acc.1 + 1, acc.2.1, acc.2.2)) :
    ∀ (l : List Nat) (acc : Nat × Nat × Nat),
      l.foldl f acc = (acc.1 + l.length, acc.2.1, acc.2.2) := by
  intro l
  induction l with
  | nil => intro acc; simp
  | cons x t ih =>
    intro acc
    simp only [List.foldl_cons, List.length_cons]
    rw [hf acc x, ih]
    have h : acc.1 + 1 + t.length = acc.1 + (t.length + 1) := by omega
    rw [h]

theorem foldl_inc2 {f : Nat × Nat × Nat → Nat → Nat × Nat × Nat}
    (hf : ∀ acc i, f acc i = (acc.1, acc.2.1 + 1, acc.2.2)) :
    ∀ (l : List Nat) (acc : Nat × Nat × Nat),
      l.foldl f acc = (acc.1, acc.2.1 + l.length, acc.2.2) := by
  intro l
  induction l with
  | nil => intro acc; simp
  | cons x t ih =>
    intro acc
    simp only [List.foldl_cons, List.length_cons]
    rw [hf acc x, ih]
    have h : acc.2.1 + 1 + t.length = acc.2.1 + (t.length + 1) := by omega
    rw [h]

theorem foldl_inc3 {f : Nat × Nat × Nat → Nat → Nat × Nat × Nat}
    (hf : ∀ acc i, f acc i = (acc.1, acc.2.1, acc.2.2 + 1)) :
    ∀ (l : List Nat) (acc : Nat × Nat × Nat),
      l.foldl f acc = (acc.1, acc.2.1, acc.2.2 + l.length) := by
  intro l
  induction l with
  | nil => intro acc; simp
  | cons x t ih =>
    intro acc
    simp only [List.foldl_cons, List.length_cons]
    rw [hf acc x, ih]
    have h : acc.2.2 + 1 + t.length = acc.2.2 + (t.length + 1) := by omega
    rw [h]

/-! ### Per-function tallying lemmas -/

theorem handVsHandTrial_sum (hero villain : Card × Card) (board : List Card)
    (shuf : Nat → List Card → List Card) (acc : Nat × Nat × Nat) (i : Nat) :
    (handVsHandTrial hero villain board shuf acc i).1 +
      (handVsHandTrial hero villain board shuf acc i).2.1 +
      (handVsHandTrial hero villain board shuf acc i).2.2 =
      acc.1 + acc.2.1 + acc.2.2 + 1 := by
  simp only [handVsHandTrial]
  split_ifs <;> dsimp only <;> omega

theorem handEquityTrial_sum (hero : Card × Card) (board : List Card)
    (shuf : Nat → List Card → List Card) (acc : Nat × Nat × Nat) (i : Nat) :
    (handEquityTrial hero board shuf acc i).1 +
      (handEquityTrial hero board shuf acc i).2.1 +
      (handEquityTrial hero board shuf acc i).2.2 =
      acc.1 + acc.2.1 + acc.2.2 + 1 := by
  simp only [handEquityTrial]
  split_ifs <;> dsimp only <;> omega

theorem rangeTrial_sum (heroRange villainRange : List (Card × Card))
    (board deck : List Card) (hpick vpick : Nat → Nat)
    (shuf : Nat → List Card → List Card) (acc : Nat × Nat × Nat) (i : Nat) :
    (rangeTrial heroRange villainRange board deck hpick vpick shuf acc i).1 +
      (rangeTrial heroRange villainRange board deck hpick vpick shuf acc i).2.1 +
      (rangeTrial heroRange villainRange board deck hpick vpick shuf acc i).2.2 =
      acc.1 + acc.2.1 + acc.2.2 + 1 := by
  simp only [rangeTrial]
  split_ifs <;> dsimp only <;> omega

theorem handVsHand_tally (hero villain : Card × Card) (board : List Card)
    (N : Nat) (shuf : Nat → List Card → List Card) :
    (calculateHandVsHandEquity hero villain board N shuf).heroWin +
      (calculateHandVsHandEquity hero villain board N shuf).villainWin +
      (calculateHandVsHandEquity hero villain board N shuf).tie = N := by
  have h := foldl_tally (handVsHandTrial_sum hero villain board shuf)
    (List.range N) (0, 0, 0)
  simp only [List.length_range] at h
  simpa [calculateHandVsHandEquity] using h

theorem handEquity_tally (hero : Card × Card) (board : List Card)
    (N : Nat) (shuf : Nat → List Card → List Card) :
    (calculateHandEquity hero board N shuf).win +
      (calculateHandEquity hero board N shuf).lose +
      (calculateHandEquity hero board N shuf).tie = N := by
  have h := foldl_tally (handEquityTrial_sum hero board shuf)
    (List.range N) (0, 0, 0)
  simp only [List.length_range] at h
  simpa [calculateHandEquity] using h

theorem range_tally (heroRange villainRange : List (Card × Card))
    (board deck : List Card) (N : Nat) (hpick vpick : Nat → Nat)
    (shuf : Nat → List Card → List Card) :
    (equityRangeVsRange heroRange villainRange board deck N hpick vpick
        shuf).heroWin +
      (equityRangeVsRange heroRange villainRange board deck N hpick vpick
        shuf).villainWin +
      (equityRangeVsRange heroRange villainRange board deck N hpick vpick
        shuf).tie = N := by
  have h := foldl_tally
    (rangeTrial_sum heroRange villainRange board deck hpick vpick shuf)
    (List.range N) (0, 0, 0)
  simp only [List.length_range] at h
  simpa [equityRangeVsRange] using h

/-! ### Full-board determinism (C8) -/

/-- With a complete 5-card board nothing random is consumed: the run-out is
empty and the trial reduces to the fixed comparison of the two 7-card
hands. -/
theorem handVsHandTrial_full_board (hero villain : Card × Card)
    (board : List Card) (shuf : Nat → List Card → List Card)
    (acc : Nat × Nat × Nat) (i : Nat) (hb : board.length = 5) :
    handVsHandTrial hero villain board shuf acc i =
      (if compareRanks (evaluate7Perfect ([hero.1, hero.2] ++ board))
          (evaluate7Perfect ([villain.1, villain.2] ++ board)) > 0 then
        (acc.1 + 1, acc.2.1, acc.2.2)
      else if compareRanks (evaluate7Perfect ([hero.1, hero.2] ++ board))
          (evaluate7Perfect ([villain.1, villain.2] ++ board)) < 0 then
        (acc.1, acc.2.1 + 1, acc.2.2)
      else (acc.1, acc.2.1, acc.2.2 + 1)) := by
  simp only [handVsHandTrial, hb, Nat.sub_self, List.take_zero,
    List.append_nil]

/-- Each percentage field is the `toFixed(2)` rounding of the matching
counter over the counter total (which `handVsHand_tally` identifies with the
trial count). -/
theorem handVsHand_pcts (hero villain : Card × Card) (board : List Card)
    (N : Nat) (shuf : Nat → List Card → List Card) :
    (calculateHandVsHandEquity hero villain board N shuf).heroPct =
      toFixed2 (((calculateHandVsHandEquity hero villain board N shuf).heroWin
        : ℚ) / (N : ℚ) * 100) ∧
    (calculateHandVsHandEquity hero villain board N shuf).villainPct =
      toFixed2 (((calculateHandVsHandEquity hero villain board N
        shuf).villainWin : ℚ) / (N : ℚ) * 100) ∧
    (calculateHandVsHandEquity hero villain board N shuf).tiePct =
      toFixed2 (((calculateHandVsHandEquity hero villain board N shuf).tie
        : ℚ) / (N : ℚ) * 100) := by
  have h := foldl_tally (handVsHandTrial_sum hero villain board shuf)
    (List.range N) (0, 0, 0)
  simp only [List.length_range, Prod.mk_zero_zero, Prod.fst_zero,
    Prod.snd_zero, Nat.zero_add] at h
  refine ⟨?_, ?_, ?_⟩ <;>
    (simp only [calculateHandVsHandEquity, Prod.mk_zero_zero]; rw [h])

theorem handEquity_pcts (hero : Card × Card) (board : List Card)
    (N : Nat) (shuf : Nat → List Card → List Card) :
    (calculateHandEquity hero board N shuf).winPct =
      toFixed2 (((calculateHandEquity hero board N shuf).win : ℚ) /
        (N : ℚ) * 100) ∧
    (calculateHandEquity hero board N shuf).losePct =
      toFixed2 (((calculateHandEquity hero board N shuf).lose : ℚ) /
        (N : ℚ) * 100) ∧
    (calculateHandEquity hero board N shuf).tiePct =
      toFixed2 (((calculateHandEquity hero board N shuf).tie : ℚ) /
        (N : ℚ) * 100) := by
  have h := foldl_tally (handEquityTrial_sum hero board shuf)
    (List.range N) (0, 0, 0)
  simp only [List.length_range, Prod.mk_zero_zero, Prod.fst_zero,
    Prod.snd_zero, Nat.zero_add] at h
  refine ⟨?_, ?_, ?_⟩ <;>
    (simp only [calculateHandEquity, Prod.mk_zero_zero]; rw [h])

/-- With a complete board the whole simulation collapses: the result is the
same for every shuffle oracle, and the counter matching the fixed comparison
is the trial count while the other two stay zero. -/
theorem handVsHand_full_board_result (hero villain : Card × Card)
    (board : List Card) (N : Nat) (shuf1 shuf2 : Nat → List Card → List Card)
    (hb : board.length = 5) :
    calculateHandVsHandEquity hero villain board N shuf1 =
      calculateHandVsHandEquity hero villain board N shuf2 ∧
    (((calculateHandVsHandEquity hero villain board N shuf1).heroWin = N ∧
      (calculateHandVsHandEquity hero villain board N shuf1).villainWin = 0 ∧
      (calculateHandVsHandEquity hero villain board N shuf1).tie = 0) ∨
     ((calculateHandVsHandEquity hero villain board N shuf1).heroWin = 0 ∧
      (calculateHandVsHandEquity hero villain board N shuf1).villainWin = N ∧
      (calculateHandVsHandEquity hero villain board N shuf1).tie = 0) ∨
     ((calculateHandVsHandEquity hero villain board N shuf1).heroWin = 0 ∧
      (calculateHandVsHandEquity hero villain board N shuf1).villainWin = 0 ∧
      (calculateHandVsHandEquity hero villain board N shuf1).tie = N)) := by
  have hfun : ∀ shuf shuf' : Nat → List Card → List Card,
      handVsHandTrial hero villain board shuf =
        handVsHandTrial hero villain board shuf' := by
    intro shuf shuf'
    funext acc i
    rw [handVsHandTrial_full_board hero villain board shuf acc i hb,
      handVsHandTrial_full_board hero villain board shuf' acc i hb]
  constructor
  · simp only [calculateHandVsHandEquity]
    rw [hfun shuf1 shuf2]
  · rcases Int.lt_trichotomy (compareRanks
        (evaluate7Perfect ([hero.1, hero.2] ++ board))
        (evaluate7Perfect ([villain.1, villain.2] ++ board))) 0 with
      hlt | heq | hgt
    · refine Or.inr (Or.inl ⟨?_, ?_, ?_⟩) <;>
        · have hstep : ∀ (acc : Nat × Nat × Nat) (i : Nat),
              handVsHandTrial hero villain board shuf1 acc i =
                (acc.1, acc.2.1 + 1, acc.2.2) := by
            intro acc i
            rw [handVsHandTrial_full_board hero villain board shuf1 acc i hb,
              if_neg (by omega), if_pos hlt]
          have hT := foldl_inc2 hstep (List.range N) (0, 0, 0)
          simp only [List.length_range, Prod.mk_zero_zero, Prod.fst_zero,
            Prod.snd_zero, Nat.zero_add] at hT
          simp [calculateHandVsHandEquity, hT]
    · refine Or.inr (Or.inr ⟨?_, ?_, ?_⟩) <;>
        · have hstep : ∀ (acc : Nat × Nat × Nat) (i : Nat),
              handVsHandTrial hero villain board shuf1 acc i =
                (acc.1, acc.2.1, acc.2.2 + 1) := by
            intro acc i
            rw [handVsHandTrial_full_board hero villain board shuf1 acc i hb,
              if_neg (by omega), if_neg (by omega)]
          have hT := foldl_inc3 hstep (List.range N) (0, 0, 0)
          simp only [List.length_range, Prod.mk_zero_zero, Prod.fst_zero,
            Prod.snd_zero, Nat.zero_add] at hT
          simp [calculateHandVsHandEquity, hT]
    · refine Or.inl ⟨?_, ?_, ?_⟩ <;>
        · have hstep : ∀ (acc : Nat × Nat × Nat) (i : Nat),
              handVsHandTrial hero villain board shuf1 acc i =
                (acc.1 + 1, acc.2.1, acc.2.2) := by
            intro acc i
            rw [handVsHandTrial_full_board hero villain board shuf1 acc i hb,
              if_pos hgt]
          have hT := foldl_inc1 hstep (List.range N) (0, 0, 0)
          simp only [List.length_range, Prod.mk_zero_zero, Prod.fst_zero,
            Prod.snd_zero, Nat.zero_add] at hT
          simp [calculateHandVsHandEquity, hT]

/-- The error taxonomy named by the spec's interface section.  The source
functions contain no validation and no throw sites, so their `Except`-valued
call surfaces below always return `.ok`. -/
inductive PokerError where
  | InvalidCard
  | InvalidHandSize
  | DuplicateCard
  | DeckExhausted
deriving DecidableEq, Repr

/-- The spec's `classify5` surface over the source's `evaluate5Kev`: the
source returns normally on every input (out-of-range reads coerce to `0`),
so the result is always `.ok`. -/
def classify5 (cards : List Card) : Except PokerError RankClass :=
  .ok (evaluate5Kev cards)

/-- The spec's `equityHandVsHand` surface over the source's
`calculateHandVsHandEquity`: the source performs no duplicate-card check and
has no failure path, so the result is always `.ok`. -/
def equityHandVsHand (heroHole villainHole : Card × Card) (board : List Card)
    (iterations : Nat) (shuf : Nat → List Card → List Card) :
    Except PokerError HandVsHandEquityResult :=
  .ok (calculateHandVsHandEquity heroHole villainHole board iterations shuf)

/-! ### General helper lemmas -/

theorem length_eq_five {l : List α} :
    l.length = 5 ↔ ∃ a b c d e, l = [a, b, c, d, e] := by
  constructor
  · intro h
    rcases l with _ | ⟨a, _ | ⟨b, _ | ⟨c, _ | ⟨d, _ | ⟨e, _ | ⟨f, t⟩⟩⟩⟩⟩⟩ <;>
      simp_all
  · rintro ⟨a, b, c, d, e, rfl⟩
    rfl

/-- Every pattern the five switch cases of `classifyByCounts` match is
written in descending order, but the default JavaScript sort produces an
ascending pattern, so the switch always falls through: `classifyByCounts`
is the constant function `HIGH`. -/
theorem classifyByCounts_eq_HIGH (counts : List Nat) :
    classifyByCounts counts = .HIGH := by
  have hs : List.Sorted jsSortLe (countPattern counts) :=
    List.sorted_insertionSort jsSortLe counts
  simp only [classifyByCounts]
  split_ifs with h1 h2 h3 h4 h5
  · rw [h1] at hs; exact absurd hs (by decide)
  · rw [h2] at hs; exact absurd hs (by decide)
  · rw [h3] at hs; exact absurd hs (by decide)
  · rw [h4] at hs; exact absurd hs (by decide)
  · rw [h5] at hs; exact absurd hs (by decide)
  · rfl

/-! ### Cache coherence (C9) -/

theorem lookup_mem {l : List (Nat × RankClass)} {k : Nat} {v : RankClass}
    (h : l.lookup k = some v) : (k, v) ∈ l := by
  induction l with
  | nil => simp [List.lookup] at h
  | cons a t ih =>
    cases a with
    | mk k2 v2 =>
      rw [List.lookup] at h
      by_cases hk : (k == k2) = true
      · simp only [hk] at h
        have h1 : k = k2 := by simpa using hk
        have h2 : v2 = v := by simpa using h
        subst h1
        subst h2
        exact List.mem_cons_self _ _
      · have hk2 : (k == k2) = false := by simpa using hk
        simp only [hk2] at h
        exact List.mem_cons_of_mem _ (ih h)

/-- One call to the stateful evaluator either leaves the cache unchanged or
prepends the prime product of the hand with its `classifyByCounts` class. -/
theorem evaluate5KevS_snd (cache : Cache) (cards : List Card) :
    (evaluate5KevS cache cards).2 = cache ∨
      (evaluate5KevS cache cards).2 =
        (prod5 (cards.map encodeCard),
          classifyByCounts (rankCounts cards)) :: cache := by
  simp only [evaluate5KevS]
  split_ifs
  · left; rfl
  · left; rfl
  · left; rfl
  · split
    · left; rfl
    · right; rfl

/-- Every value stored in a reachable cache is `HIGH` (in particular no
straight, flush or straight flush is ever stored). -/
theorem reachable_values_HIGH {cache : Cache} (h : Reachable cache) :
    ∀ kv ∈ cache, kv.2 = RankClass.HIGH := by
  induction h with
  | empty => simp
  | step cache cards _ ih =>
    rcases evaluate5KevS_snd cache cards with h2 | h2 <;> rw [h2]
    · exact ih
    · intro kv hkv
      rcases List.mem_cons.mp hkv with rfl | hkv

      · exact classifyByCounts_eq_HIGH _
      · exact ih kv hkv

/-! ### Permutation invariance machinery (C10) -/

theorem rankIdxOpt_le {s : String} {r : Nat} (h : rankIdxOpt s = some r) :
    r ≤ 12 := by
  unfold rankIdxOpt at h
  split_ifs at h with hm
  · injection h with h
    subst h
    have h2 : RANKS.indexOf s < RANKS.length := List.indexOf_lt_length.mpr hm
    rw [show RANKS.length = 13 from rfl] at h2
    omega

theorem suitMask_le (s : String) : suitMask s ≤ 0x8000 := by
  unfold suitMask
  split_ifs <;> norm_num

theorem encodeCard_lt (c : Card) : encodeCard c < 2 ^ 32 := by
  have hsuit : suitMask c.suit < 2 ^ 32 :=
    lt_of_le_of_lt (suitMask_le c.suit) (by norm_num)
  unfold encodeCard
  rcases hr : rankIdxOpt c.rank with _ | r
  · exact Nat.or_lt_two_pow hsuit (by decide)
  · have h12 : r ≤ 12 := rankIdxOpt_le hr
    have hprime : PRIMES.getD r 0 < 2 ^ 32 := by
      have : ∀ i < 13, PRIMES.getD i 0 ≤ 41 := by decide
      exact lt_of_le_of_lt (this r (by omega)) (by norm_num)
    have hshift : r <<< 8 < 2 ^ 32 := by
      rw [Nat.shiftLeft_eq]
      calc r * 2 ^ 8 ≤ 12 * 2 ^ 8 := by
            exact Nat.mul_le_mul_right _ h12
        _ < 2 ^ 32 := by norm_num
    have hbit : (1 <<< r) <<< 16 < 2 ^ 32 := by
      rw [Nat.shiftLeft_eq, Nat.shiftLeft_eq, one_mul, ← pow_add]
      exact Nat.pow_lt_pow_right (by norm_num) (by omega)
    exact Nat.or_lt_two_pow
      (Nat.or_lt_two_pow (Nat.or_lt_two_pow hprime hshift) hsuit) hbit

instance : LeftCommutative (fun (a b : Nat) => a &&& b) :=
  ⟨fun a b c => by rw [← Nat.and_assoc, Nat.and_comm a b, Nat.and_assoc]⟩

instance : LeftCommutative (fun (a b : Nat) => a ||| b) :=
  ⟨fun a b c => by rw [← Nat.or_assoc, Nat.or_comm a b, Nat.or_assoc]⟩

/-- For a five-element list of 32-bit values, the indexed `&`-chain of the
source is the fold of `&` (associative-commutative, hence
permutation-invariant). -/
theorem and5_eq_foldr {l : List Nat} (h5 : l.length = 5)
    (hb : ∀ x ∈ l, x < 2 ^ 32) :
    and5 l = l.foldr (fun a b => a &&& b) (2 ^ 32 - 1) := by
  obtain ⟨a, b, c, d, e, rfl⟩ := length_eq_five.mp h5
  have he : e &&& (2 ^ 32 - 1) = e := by
    rw [Nat.and_pow_two_sub_one_eq_mod]
    exact Nat.mod_eq_of_lt (hb e (by simp))
  have hfold : [a, b, c, d, e].foldr (fun a b => a &&& b) (2 ^ 32 - 1) =
      a &&& (b &&& (c &&& (d &&& e))) := by
    simp only [List.foldr]
    rw [he]
  rw [hfold]
  simp only [and5, List.getD_cons_zero, List.getD_cons_succ]
  simp [Nat.and_assoc]

/-- For a five-element list, the indexed `|`-chain of the source is the fold
of `|`. -/
theorem or5_eq_foldr {l : List Nat} (h5 : l.length = 5) :
    or5 l = l.foldr (fun a b => a ||| b) 0 := by
  obtain ⟨a, b, c, d, e, rfl⟩ := length_eq_five.mp h5
  simp [or5, Nat.or_assoc]

/-- The count record only depends on the multiset of cards. -/
theorem rankCounts_perm {l1 l2 : List Card} (hp : l1.Perm l2) :
    rankCounts l1 = rankCounts l2 := by
  have hrs : (l1.filterMap (fun c => rankIdxOpt c.rank)).Perm
      (l2.filterMap (fun c => rankIdxOpt c.rank)) := hp.filterMap _
  have hmap :
      (List.range 13).map
          (fun r => (l1.filterMap (fun c => rankIdxOpt c.rank)).count r) =
        (List.range 13).map
          (fun r => (l2.filterMap (fun c => rankIdxOpt c.rank)).count r) :=
    List.map_congr_left (fun r _ => hrs.count_eq r)
  simp only [rankCounts]
  rw [hmap, hp.length_eq, hrs.length_eq]

/-- C10: `evaluate5Kev` is invariant under permutation of its five cards:
flush mask, straight mask and count pattern all only depend on the multiset
of cards. -/
theorem evaluate5Kev_perm {l1 l2 : List Card} (h5 : l1.length = 5)
    (hp : l1.Perm l2) : evaluate5Kev l1 = evaluate5Kev l2 := by
  have hm : (l1.map encodeCard).Perm (l2.map encodeCard) := hp.map _
  have h5m : (l1.map encodeCard).length = 5 := by simpa using h5
  have h5m2 : (l2.map encodeCard).length = 5 := by rw [← hm.length_eq]; exact h5m
  have hb1 : ∀ x ∈ l1.map encodeCard, x < 2 ^ 32 := by
    intro x hx
    rcases List.mem_map.mp hx with ⟨c, _, rfl⟩
    exact encodeCard_lt c
  have hb2 : ∀ x ∈ l2.map encodeCard, x < 2 ^ 32 := by
    intro x hx
    exact hb1 x (hm.mem_iff.mpr hx)
  have hand : and5 (l1.map encodeCard) = and5 (l2.map encodeCard) := by
    rw [and5_eq_foldr h5m hb1, and5_eq_foldr h5m2 hb2]
    exact hm.foldr_eq _
  have hor : or5 (l1.map encodeCard) = or5 (l2.map encodeCard) := by
    rw [or5_eq_foldr h5m, or5_eq_foldr h5m2]
    exact hm.foldr_eq _
  have hcnt : rankCounts l1 = rankCounts l2 := rankCounts_perm hp
  have hflush : isFlush5 l1 = isFlush5 l2 := by
    simp only [isFlush5]
    rw [hand]
  have hstraight : isStraight5 l1 = isStraight5 l2 := by
    simp only [isStraight5]
    rw [hor]
  simp only [evaluate5Kev]
  rw [hflush, hstraight, hcnt]

/-! ### Prime-product injectivity (C9) -/

theorem encodeAt_low : ∀ r < 13, ∀ m ∈ [0x8000, 0x4000, 0x2000, 0x1000, 0],
    encodeAt (some r) m &&& 0xff = PRIMES.getD r 0 := by decide

theorem suitMask_mem (s : String) :
    suitMask s ∈ [0x8000, 0x4000, 0x2000, 0x1000, 0] := by
  unfold suitMask
  split_ifs <;> simp

/-- The low byte of a validly encoded card is exactly its prime weight. -/
theorem encodeCard_low {c : Card} {r : Nat} (h : rankIdxOpt c.rank = some r) :
    encodeCard c &&& 0xff = PRIMES.getD r 0 := by
  have h13 : r < 13 := by
    have := rankIdxOpt_le h
    omega
  unfold encodeCard
  rw [h]
  exact encodeAt_low r h13 _ (suitMask_mem c.suit)

/-- For a valid 5-card hand, the source's prime product is the product of
the prime weights of the hand's rank indices. -/
theorem prod5_eq_prod {l : List Card} (h5 : l.length = 5)
    (hv : ∀ c ∈ l, (rankIdxOpt c.rank).isSome) :
    prod5 (l.map encodeCard) =
      ((l.filterMap (fun c => rankIdxOpt c.rank)).map
        (fun i => PRIMES.getD i 0)).prod := by
  obtain ⟨a, b, c, d, e, rfl⟩ := length_eq_five.mp h5
  obtain ⟨ra, ha⟩ := Option.isSome_iff_exists.mp (hv a (by simp))
  obtain ⟨rb, hb⟩ := Option.isSome_iff_exists.mp (hv b (by simp))
  obtain ⟨rc, hc⟩ := Option.isSome_iff_exists.mp (hv c (by simp))
  obtain ⟨rd, hd⟩ := Option.isSome_iff_exists.mp (hv d (by simp))
  obtain ⟨re, he⟩ := Option.isSome_iff_exists.mp (hv e (by simp))
  simp only [List.map_cons, List.map_nil, List.filterMap_cons, ha, hb, hc, hd,
    he, List.filterMap_nil, prod5, List.getD_cons_zero, List.getD_cons_succ,
    List.prod_cons, List.prod_nil]
  rw [encodeCard_low ha, encodeCard_low hb, encodeCard_low hc,
    encodeCard_low hd, encodeCard_low he]
  ring

theorem PRIMES_prime : ∀ i < 13, Nat.Prime (PRIMES.getD i 0) := by
  intro i hi
  interval_cases i <;> norm_num [PRIMES]

/-- The inverse of the prime table on its thirteen entries. -/
def primeToIdx (p : Nat) : Nat := PRIMES.indexOf p

theorem primeToIdx_getD : ∀ i < 13, primeToIdx (PRIMES.getD i 0) = i := by
  decide

/-- Unique factorization: two valid 5-card hands with the same prime product
have the same multiset of rank indices. -/
theorem prod_eq_ranks_perm {l1 l2 : List Card}
    (h51 : l1.length = 5) (h52 : l2.length = 5)
    (hv1 : ∀ c ∈ l1, (rankIdxOpt c.rank).isSome)
    (hv2 : ∀ c ∈ l2, (rankIdxOpt c.rank).isSome)
    (hprod : prod5 (l1.map encodeCard) = prod5 (l2.map encodeCard)) :
    (l1.filterMap (fun c => rankIdxOpt c.rank)).Perm
      (l2.filterMap (fun c => rankIdxOpt c.rank)) := by
  have hb1 : ∀ i ∈ l1.filterMap (fun c => rankIdxOpt c.rank), i < 13 := by
    intro i hi
    rcases List.mem_filterMap.mp hi with ⟨c, _, hc⟩
    have := rankIdxOpt_le hc
    omega
  have hb2 : ∀ i ∈ l2.filterMap (fun c => rankIdxOpt c.rank), i < 13 := by
    intro i hi
    rcases List.mem_filterMap.mp hi with ⟨c, _, hc⟩
    have := rankIdxOpt_le hc
    omega
  have hp1 : ∀ p ∈ (l1.filterMap (fun c => rankIdxOpt c.rank)).map
      (fun i => PRIMES.getD i 0), Nat.Prime p := by
    intro p hp
    rcases List.mem_map.mp hp with ⟨i, hi, rfl⟩
    exact PRIMES_prime i (hb1 i hi)
  have hp2 : ∀ p ∈ (l2.filterMap (fun c => rankIdxOpt c.rank)).map
      (fun i => PRIMES.getD i 0), Nat.Prime p := by
    intro p hp
    rcases List.mem_map.mp hp with ⟨i, hi, rfl⟩
    exact PRIMES_prime i (hb2 i hi)
  have hprod2 : ((l2.filterMap (fun c => rankIdxOpt c.rank)).map
      (fun i => PRIMES.getD i 0)).prod =
      ((l1.filterMap (fun c => rankIdxOpt c.rank)).map
        (fun i => PRIMES.getD i 0)).prod := by
    rw [← prod5_eq_prod h51 hv1, ← prod5_eq_prod h52 hv2, hprod]
  have hperm1 := Nat.primeFactorsList_unique (l := (l1.filterMap
    (fun c => rankIdxOpt c.rank)).map (fun i => PRIMES.getD i 0)) rfl hp1
  have hperm2 := Nat.primeFactorsList_unique (l := (l2.filterMap
    (fun c => rankIdxOpt c.rank)).map (fun i => PRIMES.getD i 0)) hprod2 hp2
  have hperm : ((l1.filterMap (fun c => rankIdxOpt c.rank)).map
      (fun i => PRIMES.getD i 0)).Perm
      ((l2.filterMap (fun c => rankIdxOpt c.rank)).map
        (fun i => PRIMES.getD i 0)) := hperm1.trans hperm2.symm
  have hrec1 : ((l1.filterMap (fun c => rankIdxOpt c.rank)).map
      (fun i => PRIMES.getD i 0)).map primeToIdx =
      l1.filterMap (fun c => rankIdxOpt c.rank) := by
    rw [List.map_map]
    have h := List.map_congr_left
      (fun i hi => primeToIdx_getD i (hb1 i hi))
    simp only [Function.comp_def]
    rw [h]
    simp
  have hrec2 : ((l2.filterMap (fun c => rankIdxOpt c.rank)).map
      (fun i => PRIMES.getD i 0)).map primeToIdx =
      l2.filterMap (fun c => rankIdxOpt c.rank) := by
    rw [List.map_map]
    have h := List.map_congr_left
      (fun i hi => primeToIdx_getD i (hb2 i hi))
    simp only [Function.comp_def]
    rw [h]
    simp
  rw [← hrec1, ← hrec2]
  exact hperm.map primeToIdx

/-- Equal prime products over valid non-degenerate hands force equal count
records. -/
theorem prod_eq_rankCounts_eq {l1 l2 : List Card}
    (h51 : l1.length = 5) (h52 : l2.length = 5)
    (hv1 : ∀ c ∈ l1, (rankIdxOpt c.rank).isSome)
    (hv2 : ∀ c ∈ l2, (rankIdxOpt c.rank).isSome)
    (hprod : prod5 (l1.map encodeCard) = prod5 (l2.map encodeCard)) :
    rankCounts l1 = rankCounts l2 := by
  have hperm := prod_eq_ranks_perm h51 h52 hv1 hv2 hprod
  simp only [rankCounts]
  rw [List.map_congr_left (fun r _ => hperm.count_eq r), hperm.length_eq,
    h51, h52]

/-- On any reachable cache the stateful evaluator returns exactly what the
stateless one returns: a hit only ever returns a stored `HIGH`, which is
what `classifyByCounts` would have recomputed. -/
theorem evaluate5KevS_fst {cache : Cache} (h : Reachable cache)
    (cards : List Card) :
    (evaluate5KevS cache cards).1 = evaluate5Kev cards := by
  have hvals := reachable_values_HIGH h
  simp only [evaluate5KevS, evaluate5Kev]
  split_ifs <;> try rfl
  split
  · next v hlookup =>
    have hv : v = RankClass.HIGH := hvals _ (lookup_mem hlookup)
    rw [hv, classifyByCounts_eq_HIGH]
  · rfl

/-! ### The claims -/

/-- C1: the spec maps the sorted rank-count pattern `[3,2]` to Full House —
in particular `classify5` of 2♣ 2♦ 2♥ 5♠ 5♣ should be Full House.  The code
instead returns High Card: the default JavaScript `sort()` orders the
pattern ascending (`'2,3'`), so the descending switch patterns (`'4,1'`,
`'3,2'`, `'3,1,1'`, `'2,2,1'`, `'2,1,1,1'`) can never match and
`classifyByCounts` is the constant function `HIGH`. -/
theorem fullhouse_hand_classified_HIGH :
    evaluate5Kev [⟨"2", "♣️"⟩, ⟨"2", "♦️"⟩, ⟨"2", "♥️"⟩, ⟨"5", "♠️"⟩,
      ⟨"5", "♣️"⟩] = RankClass.HIGH ∧
    ∀ counts : List Nat, classifyByCounts counts = RankClass.HIGH :=
  ⟨by decide, classifyByCounts_eq_HIGH⟩

/-- C2: the spec says each trial of `equityRangeVsRange` compares the two
`RankClass` results by the `rankOrder` total order.  The code instead
compares the rank-class name strings with `>`: on a full board where hero
holds only high card (`HIGH`) and villain holds a flush (`FLUSH`), the trial
increments `heroWin` because the string `"HIGH"` is lexicographically
greater than `"FLUSH"`, although `FLUSH` is strictly above `HIGH` in the
`RANK_ORDER` total order. -/
theorem rangeVsRange_compares_strings_not_rank_order :
    equityRangeVsRange [(⟨"4", "♦️"⟩, ⟨"8", "♣️"⟩)]
        [(⟨"A", "♠️"⟩, ⟨"J", "♠️"⟩)]
        [⟨"2", "♠️"⟩, ⟨"7", "♠️"⟩, ⟨"9", "♠️"⟩, ⟨"K", "♦️"⟩, ⟨"3", "♥️"⟩]
        [] 1 (fun _ => 0) (fun _ => 0) (fun _ d => d) =
      ⟨1, 0, 0⟩ ∧
    evaluate7Perfect [⟨"4", "♦️"⟩, ⟨"8", "♣️"⟩, ⟨"2", "♠️"⟩, ⟨"7", "♠️"⟩,
      ⟨"9", "♠️"⟩, ⟨"K", "♦️"⟩, ⟨"3", "♥️"⟩] = RankClass.HIGH ∧
    evaluate7Perfect [⟨"A", "♠️"⟩, ⟨"J", "♠️"⟩, ⟨"2", "♠️"⟩, ⟨"7", "♠️"⟩,
      ⟨"9", "♠️"⟩, ⟨"K", "♦️"⟩, ⟨"3", "♥️"⟩] = RankClass.FLUSH ∧
    RANK_ORDER.indexOf RankClass.HIGH < RANK_ORDER.indexOf RankClass.FLUSH :=
  ⟨by decide, by decide, by decide, by decide⟩

/-- C3 (counterexample): a hand-vs-hand equity call whose hero and villain
holdings share the card A♠ does not fail with `DuplicateCard` — the source
performs no duplicate check and has no failure path at all. -/
theorem handVsHand_duplicate_not_rejected :
    equityHandVsHand (⟨"A", "♠️"⟩, ⟨"K", "♦️"⟩) (⟨"A", "♠️"⟩, ⟨"Q", "♣️"⟩)
        [] 1 (fun _ d => d) ≠
      Except.error PokerError.DuplicateCard := by
  simp [equityHandVsHand]

/-- C3 (as amended): with the card A♠ duplicated across hero and villain the
call silently runs all trials and returns an ordinary counters object (here
the shared run-out 2♣ 3♣ 4♣ 5♣ 6♣ is a straight flush on the board, so the
single trial ties). -/
theorem handVsHand_duplicate_runs_all_trials :
    (calculateHandVsHandEquity (⟨"A", "♠️"⟩, ⟨"K", "♦️"⟩)
        (⟨"A", "♠️"⟩, ⟨"Q", "♣️"⟩) [] 1 (fun _ d => d)).heroWin = 0 ∧
    (calculateHandVsHandEquity (⟨"A", "♠️"⟩, ⟨"K", "♦️"⟩)
        (⟨"A", "♠️"⟩, ⟨"Q", "♣️"⟩) [] 1 (fun _ d => d)).villainWin = 0 ∧
    (calculateHandVsHandEquity (⟨"A", "♠️"⟩, ⟨"K", "♦️"⟩)
        (⟨"A", "♠️"⟩, ⟨"Q", "♣️"⟩) [] 1 (fun _ d => d)).tie = 1 :=
  ⟨by decide, by decide, by decide⟩

/-- C4 (counterexample): a 4-card input to `classify5` does not fail with
`InvalidHandSize` — the source performs no arity check and evaluates the
hand with JavaScript out-of-range coercions. -/
theorem classify5_four_cards_not_rejected :
    classify5 [⟨"2", "♣️"⟩, ⟨"3", "♦️"⟩, ⟨"7", "♥️"⟩, ⟨"9", "♠️"⟩] ≠
      Except.error PokerError.InvalidHandSize := by
  simp [classify5]

/-- C4 (as amended): the 4-card input 2♣ 3♦ 7♥ 9♠ is evaluated normally (the
missing fifth card reads as `undefined`, coerced to `0` by the bitwise
operators) and yields the `RankClass` `HIGH`. -/
theorem classify5_four_cards_returns_class :
    classify5 [⟨"2", "♣️"⟩, ⟨"3", "♦️"⟩, ⟨"7", "♥️"⟩, ⟨"9", "♠️"⟩] =
      Except.ok RankClass.HIGH := by
  have h : evaluate5Kev [⟨"2", "♣️"⟩, ⟨"3", "♦️"⟩, ⟨"7", "♥️"⟩, ⟨"9", "♠️"⟩] =
      RankClass.HIGH := by decide
  simp [classify5, h]

/-- C5: the straight table holds exactly ten patterns — the nine consecutive
5-bit windows over the 13-bit rank space and the wheel — and the wheel hand
A♣ 2♦ 3♥ 4♠ 5♣ classifies as `STRAIGHT` (not `HIGH`). -/
theorem straights_table_ten_patterns_wheel :
    STRAIGHTS = (List.range 9).map (fun k => 0b11111 <<< (8 - k)) ++
        [0b1000000001111] ∧
    STRAIGHTS.length = 10 ∧
    evaluate5Kev [⟨"A", "♣️"⟩, ⟨"2", "♦️"⟩, ⟨"3", "♥️"⟩, ⟨"4", "♠️"⟩,
      ⟨"5", "♣️"⟩] = RankClass.STRAIGHT :=
  ⟨by decide, by decide, by decide⟩

/-- C6: on a 7-card input `evaluate7Perfect` ranges over all 21 five-card
subsets, its result bounds every subset's class in the `RANK_ORDER` total
order, and the result is attained by some subset — i.e. it is the maximum
of the 21 classifications. -/
theorem evaluate7Perfect_is_max (cards : List Card) (h7 : cards.length = 7) :
    (combinations cards 5).length = 21 ∧
    (∀ s ∈ combinations cards 5,
      RANK_ORDER.indexOf (evaluate5Kev s) ≤
        RANK_ORDER.indexOf (evaluate7Perfect cards)) ∧
    ∃ s ∈ combinations cards 5, evaluate5Kev s = evaluate7Perfect cards := by
  have hlen : (combinations cards 5).length = 21 := by
    rw [combinations_length, h7]
    decide
  obtain ⟨h1, h2, h3⟩ := foldl_best_spec (combinations cards 5) RankClass.HIGH
  have hEP : evaluate7Perfect cards = (combinations cards 5).foldl
      (fun best c =>
        let r := evaluate5Kev c
        if RANK_ORDER.indexOf r > RANK_ORDER.indexOf best then r else best)
      RankClass.HIGH := rfl
  refine ⟨hlen, ?_, ?_⟩
  · intro s hs
    rw [hEP]
    exact h3 s hs
  · rcases h2 with heq | ⟨s, hs, hval⟩
    · have hne : combinations cards 5 ≠ [] := by
        intro hnil
        rw [hnil] at hlen
        simp at hlen
      obtain ⟨s0, hs0⟩ := List.exists_mem_of_ne_nil _ hne
      refine ⟨s0, hs0, ?_⟩
      have hle := h3 s0 hs0
      rw [heq] at hle
      have hidx0 : RANK_ORDER.indexOf RankClass.HIGH = 0 := by decide
      have h0 : RANK_ORDER.indexOf (evaluate5Kev s0) = 0 := by omega
      rw [indexOf_eq_zero_HIGH _ h0, hEP, heq]
    · refine ⟨s, hs, ?_⟩
      rw [hEP]
      exact hval

theorem evaluate7Perfect_is_max_witness :
    (combinations [(⟨"A", "♠️"⟩ : Card), ⟨"K", "♠️"⟩, ⟨"Q", "♠️"⟩,
      ⟨"J", "♠️"⟩, ⟨"10", "♠️"⟩, ⟨"2", "♣️"⟩, ⟨"3", "♦️"⟩] 5).length = 21 :=
  (evaluate7Perfect_is_max [⟨"A", "♠️"⟩, ⟨"K", "♠️"⟩, ⟨"Q", "♠️"⟩,
    ⟨"J", "♠️"⟩, ⟨"10", "♠️"⟩, ⟨"2", "♣️"⟩, ⟨"3", "♦️"⟩] (by decide)).1

/-- C7: for every equity call with a positive trial count the three counters
sum to exactly the trial count, and each returned percentage is its counter
divided by the trial count, times 100, rounded to two decimal places
(`equityRangeVsRange` returns only the three counters, which sum to the
trial count). -/
theorem equity_counters_and_percentages :
    (∀ (hero villain : Card × Card) (board : List Card) (N : Nat)
        (shuf : Nat → List Card → List Card), 0 < N →
      ((calculateHandVsHandEquity hero villain board N shuf).heroWin +
        (calculateHandVsHandEquity hero villain board N shuf).villainWin +
        (calculateHandVsHandEquity hero villain board N shuf).tie = N) ∧
      (calculateHandVsHandEquity hero villain board N shuf).heroPct =
        toFixed2 (((calculateHandVsHandEquity hero villain board N
          shuf).heroWin : ℚ) / (N : ℚ) * 100) ∧
      (calculateHandVsHandEquity hero villain board N shuf).villainPct =
        toFixed2 (((calculateHandVsHandEquity hero villain board N
          shuf).villainWin : ℚ) / (N : ℚ) * 100) ∧
      (calculateHandVsHandEquity hero villain board N shuf).tiePct =
        toFixed2 (((calculateHandVsHandEquity hero villain board N
          shuf).tie : ℚ) / (N : ℚ) * 100)) ∧
    (∀ (hero : Card × Card) (board : List Card) (N : Nat)
        (shuf : Nat → List Card → List Card), 0 < N →
      ((calculateHandEquity hero board N shuf).win +
        (calculateHandEquity hero board N shuf).lose +
        (calculateHandEquity hero board N shuf).tie = N) ∧
      (calculateHandEquity hero board N shuf).winPct =
        toFixed2 (((calculateHandEquity hero board N shuf).win : ℚ) /
          (N : ℚ) * 100) ∧
      (calculateHandEquity hero board N shuf).losePct =
        toFixed2 (((calculateHandEquity hero board N shuf).lose : ℚ) /
          (N : ℚ) * 100) ∧
      (calculateHandEquity hero board N shuf).tiePct =
        toFixed2 (((calculateHandEquity hero board N shuf).tie : ℚ) /
          (N : ℚ) * 100)) ∧
    (∀ (heroRange villainRange : List (Card × Card)) (board deck : List Card)
        (N : Nat) (hpick vpick : Nat → Nat)
        (shuf : Nat → List Card → List Card), 0 < N →
      (equityRangeVsRange heroRange villainRange board deck N hpick vpick
          shuf).heroWin +
        (equityRangeVsRange heroRange villainRange board deck N hpick vpick
          shuf).villainWin +
        (equityRangeVsRange heroRange villainRange board deck N hpick vpick
          shuf).tie = N) := by
  refine ⟨?_, ?_, ?_⟩
  · intro hero villain board N shuf _
    exact ⟨handVsHand_tally hero villain board N shuf,
      (handVsHand_pcts hero villain board N shuf).1,
      (handVsHand_pcts hero villain board N shuf).2.1,
      (handVsHand_pcts hero villain board N shuf).2.2⟩
  · intro hero board N shuf _
    exact ⟨handEquity_tally hero board N shuf,
      (handEquity_pcts hero board N shuf).1,
      (handEquity_pcts hero board N shuf).2.1,
      (handEquity_pcts hero board N shuf).2.2⟩
  · intro heroRange villainRange board deck N hpick vpick shuf _
    exact range_tally heroRange villainRange board deck N hpick vpick shuf

theorem equity_counters_and_percentages_witness :
    (calculateHandVsHandEquity (⟨"A", "♠️"⟩, ⟨"K", "♠️"⟩)
        (⟨"Q", "♥️"⟩, ⟨"Q", "♦️"⟩) [] 2 (fun _ d => d)).heroWin +
      (calculateHandVsHandEquity (⟨"A", "♠️"⟩, ⟨"K", "♠️"⟩)
        (⟨"Q", "♥️"⟩, ⟨"Q", "♦️"⟩) [] 2 (fun _ d => d)).villainWin +
      (calculateHandVsHandEquity (⟨"A", "♠️"⟩, ⟨"K", "♠️"⟩)
        (⟨"Q", "♥️"⟩, ⟨"Q", "♦️"⟩) [] 2 (fun _ d => d)).tie = 2 :=
  ((equity_counters_and_percentages.1 (⟨"A", "♠️"⟩, ⟨"K", "♠️"⟩)
    (⟨"Q", "♥️"⟩, ⟨"Q", "♦️"⟩) [] 2 (fun _ d => d) (by decide)).1)

/-- C8: with a full 5-card board and two fixed holdings nothing random is
consumed, so the result is identical for any two shuffle oracles, and with a
positive trial count exactly one of the three counters equals the trial
count while the other two are zero. -/
theorem handVsHand_full_board_deterministic (hero villain : Card × Card)
    (board : List Card) (N : Nat) (shuf1 shuf2 : Nat → List Card → List Card)
    (hb : board.length = 5) (hN : 0 < N) :
    calculateHandVsHandEquity hero villain board N shuf1 =
      calculateHandVsHandEquity hero villain board N shuf2 ∧
    (((calculateHandVsHandEquity hero villain board N shuf1).heroWin = N ∧
      (calculateHandVsHandEquity hero villain board N shuf1).villainWin = 0 ∧
      (calculateHandVsHandEquity hero villain board N shuf1).tie = 0) ∨
     ((calculateHandVsHandEquity hero villain board N shuf1).heroWin = 0 ∧
      (calculateHandVsHandEquity hero villain board N shuf1).villainWin = N ∧
      (calculateHandVsHandEquity hero villain board N shuf1).tie = 0) ∨
     ((calculateHandVsHandEquity hero villain board N shuf1).heroWin = 0 ∧
      (calculateHandVsHandEquity hero villain board N shuf1).villainWin = 0 ∧
      (calculateHandVsHandEquity hero villain board N shuf1).tie = N)) :=
  have _ := hN
  handVsHand_full_board_result hero villain board N shuf1 shuf2 hb

theorem handVsHand_full_board_deterministic_witness :
    calculateHandVsHandEquity (⟨"A", "♠️"⟩, ⟨"A", "♥️"⟩)
        (⟨"K", "♠️"⟩, ⟨"K", "♥️"⟩)
        [⟨"2", "♣️"⟩, ⟨"7", "♦️"⟩, ⟨"9", "♥️"⟩, ⟨"J", "♠️"⟩, ⟨"4", "♣️"⟩] 2
        (fun _ d => d) =
      calculateHandVsHandEquity (⟨"A", "♠️"⟩, ⟨"A", "♥️"⟩)
        (⟨"K", "♠️"⟩, ⟨"K", "♥️"⟩)
        [⟨"2", "♣️"⟩, ⟨"7", "♦️"⟩, ⟨"9", "♥️"⟩, ⟨"J", "♠️"⟩, ⟨"4", "♣️"⟩] 2
        (fun _ d => d.reverse) :=
  (handVsHand_full_board_deterministic (⟨"A", "♠️"⟩, ⟨"A", "♥️"⟩)
    (⟨"K", "♠️"⟩, ⟨"K", "♥️"⟩)
    [⟨"2", "♣️"⟩, ⟨"7", "♦️"⟩, ⟨"9", "♥️"⟩, ⟨"J", "♠️"⟩, ⟨"4", "♣️"⟩] 2
    (fun _ d => d) (fun _ d => d.reverse) (by decide) (by decide)).1

/-- C9: (1) over valid 5-card hands that are neither straights nor flushes,
equal prime products force equal sorted rank-count patterns (unique
factorization); (2) `evaluate5Kev` returns the same `RankClass` on every
cache reachable by any prior sequence of calls as it does statelessly from
the empty cache; (3) no straight, flush or straight flush is ever stored in
the cache (those paths return before the cache is consulted). -/
theorem prime_product_cache_coherence :
    (∀ l1 l2 : List Card, l1.length = 5 → l2.length = 5 →
      (∀ c ∈ l1, validCard c) → (∀ c ∈ l2, validCard c) →
      isStraight5 l1 = false → isFlush5 l1 = false →
      isStraight5 l2 = false → isFlush5 l2 = false →
      prod5 (l1.map encodeCard) = prod5 (l2.map encodeCard) →
      countPattern (rankCounts l1) = countPattern (rankCounts l2)) ∧
    (∀ cache, Reachable cache → ∀ cards,
      (evaluate5KevS cache cards).1 = evaluate5Kev cards) ∧
    (∀ cache, Reachable cache → ∀ kv ∈ cache,
      kv.2 ≠ RankClass.STRAIGHT ∧ kv.2 ≠ RankClass.FLUSH ∧
        kv.2 ≠ RankClass.STRAIGHTFLUSH) := by
  refine ⟨?_, ?_, ?_⟩
  · intro l1 l2 h51 h52 hv1 hv2 _ _ _ _ hprod
    have hv1s : ∀ c ∈ l1, (rankIdxOpt c.rank).isSome := by
      intro c hc
      have h := hv1 c hc
      simp only [validCard, Bool.and_eq_true] at h
      exact h.1
    have hv2s : ∀ c ∈ l2, (rankIdxOpt c.rank).isSome := by
      intro c hc
      have h := hv2 c hc
      simp only [validCard, Bool.and_eq_true] at h
      exact h.1
    exact congrArg countPattern
      (prod_eq_rankCounts_eq h51 h52 hv1s hv2s hprod)
  · intro cache hr cards
    exact evaluate5KevS_fst hr cards
  · intro cache hr kv hkv
    rw [reachable_values_HIGH hr kv hkv]
    exact ⟨by decide, by decide, by decide⟩

theorem prime_product_cache_coherence_witness :
    countPattern (rankCounts [⟨"2", "♣️"⟩, ⟨"3", "♦️"⟩, ⟨"7", "♥️"⟩,
        ⟨"9", "♠️"⟩, ⟨"K", "♣️"⟩]) =
      countPattern (rankCounts [⟨"K", "♦️"⟩, ⟨"9", "♣️"⟩, ⟨"7", "♦️"⟩,
        ⟨"3", "♠️"⟩, ⟨"2", "♥️"⟩]) ∧
    (evaluate5KevS [] [⟨"2", "♣️"⟩, ⟨"3", "♦️"⟩, ⟨"7", "♥️"⟩, ⟨"9", "♠️"⟩,
        ⟨"K", "♣️"⟩]).1 =
      evaluate5Kev [⟨"2", "♣️"⟩, ⟨"3", "♦️"⟩, ⟨"7", "♥️"⟩, ⟨"9", "♠️"⟩,
        ⟨"K", "♣️"⟩] :=
  ⟨prime_product_cache_coherence.1
      [⟨"2", "♣️"⟩, ⟨"3", "♦️"⟩, ⟨"7", "♥️"⟩, ⟨"9", "♠️"⟩, ⟨"K", "♣️"⟩]
      [⟨"K", "♦️"⟩, ⟨"9", "♣️"⟩, ⟨"7", "♦️"⟩, ⟨"3", "♠️"⟩, ⟨"2", "♥️"⟩]
      (by decide) (by decide) (by decide) (by decide) (by decide) (by decide)
      (by decide) (by decide) (by decide),
    prime_product_cache_coherence.2.1 [] Reachable.empty
      [⟨"2", "♣️"⟩, ⟨"3", "♦️"⟩, ⟨"7", "♥️"⟩, ⟨"9", "♠️"⟩, ⟨"K", "♣️"⟩]⟩

theorem evaluate5Kev_perm_witness :
    evaluate5Kev [⟨"2", "♣️"⟩, ⟨"2", "♦️"⟩, ⟨"2", "♥️"⟩, ⟨"5", "♠️"⟩,
        ⟨"5", "♣️"⟩] =
      evaluate5Kev [⟨"5", "♣️"⟩, ⟨"2", "♦️"⟩, ⟨"5", "♠️"⟩, ⟨"2", "♥️"⟩,
        ⟨"2", "♣️"⟩] :=
  evaluate5Kev_perm (by decide) (by decide)
